import Mathlib

/-!
# XLR8PWM: channel allocator and register protocol

Shallow embedding of `src/src/XLR8PWM.h` and `src/src/XLR8PWM.cpp`.

* The process-wide data (`pwms`, `PwmCount`) and the five memory-mapped
  registers form an explicit `State`; every member function becomes a function
  taking the handle and the state.
* `uint8_t` / `uint16_t` values are naturals, reduced `% 2 ^ 8` / `% 2 ^ 16`
  wherever the C++ stores into such a type.
* Every store to a register goes through `writeReg`, which also appends the
  store to `State.writes`, so the order and number of register writes of a call
  can be read off.
* `float` arguments are rationals: every binary32 value is a rational, and the
  product with 16 is exact in binary32 (a power-of-two scaling), as is the
  division of an integer below 4096 by 16.
* The registers are read back as plain storage (a read yields the last value
  stored).
* A table access with an index outside `pwms` is kept apart from the table: a
  store is recorded in `State.outOfTable`, a load has no result.
* `World` puts the objects constructed so far next to the state, for the
  statements that follow handles through a run of the program.
-/

namespace XLR8PWM

/-- Capacity of the table: `#define MAX_PWMS 32`. -/
def MAX_PWMS : Nat := 32

/-- Sentinel index: `#define INVALID_PWM 255`. -/
def INVALID_PWM : Nat := 255

/-- The five register names of `XLR8PWM.h`. -/
inductive Reg where
  | PWMCR
  | PWMPERH
  | PWMPERL
  | PWMPWH
  | PWMPWL
  deriving DecidableEq, Repr

/-- Process-wide state: the static table `pwms` (entry `i` is
`pwms[i].settings.en`), the counter `PwmCount`, the contents of the five
registers, the register stores performed so far (oldest first) and the table
accesses that fell outside `pwms` (oldest first). -/
structure State where
  pwms : List Bool
  PwmCount : Nat
  PWMCR : Nat
  PWMPERH : Nat
  PWMPERL : Nat
  PWMPWH : Nat
  PWMPWL : Nat
  writes : List (Reg × Nat)
  outOfTable : List Nat
  deriving DecidableEq, Repr

/-- An `XLR8PWM` object: its only data member is `uint8_t pwmIndex`. -/
structure Handle where
  pwmIndex : Nat
  deriving DecidableEq, Repr

/-- State at program start: `pwms` zero-initialised, `PwmCount = 0`, nothing
written yet; the registers hold the given bytes. -/
def startState (cr perh perl pwh pwl : Nat) : State :=
  { pwms := List.replicate MAX_PWMS false
    PwmCount := 0
    PWMCR := cr
    PWMPERH := perh
    PWMPERL := perl
    PWMPWH := pwh
    PWMPWL := pwl
    writes := []
    outOfTable := [] }

/-- A state in which all 32 slots have been handed out (and none enabled). -/
def fullState : State :=
  { startState 0 0 0 0 0 with PwmCount := 32 }

/-- Store `pwms[i].settings.en = b`. An index outside the table is recorded in
`outOfTable`; the table itself is left as it is (the byte that the C++ store
hits lies outside `pwms`). -/
def storeEn (i : Nat) (b : Bool) (s : State) : State :=
  if i < MAX_PWMS then { s with pwms := s.pwms.set i b }
  else { s with outOfTable := s.outOfTable ++ [i] }

/-- Load `pwms[i].settings.en`; `none` when `i` lies outside the table. -/
def loadEn (i : Nat) (s : State) : Option Bool :=
  if i < MAX_PWMS then s.pwms[i]? else none

/-- Store the byte `v % 256` into register `r` and log the store. -/
def writeReg (r : Reg) (v : Nat) (s : State) : State :=
  let b := v % 256
  let t : State := { s with writes := s.writes ++ [(r, b)] }
  match r with
  | .PWMCR => { t with PWMCR := b }
  | .PWMPERH => { t with PWMPERH := b }
  | .PWMPERL => { t with PWMPERL := b }
  | .PWMPWH => { t with PWMPWH := b }
  | .PWMPWL => { t with PWMPWL := b }

/-- Constructor `XLR8PWM::XLR8PWM()`:
`if (PwmCount < MAX_PWMS) { pwmIndex = PwmCount++; pwms[pwmIndex].settings.en = false; }`
`else { pwmIndex = INVALID_PWM; }`. -/
def construct (s : State) : Handle × State :=
  if s.PwmCount < MAX_PWMS then
    let idx := s.PwmCount
    let s1 : State := { s with PwmCount := (s.PwmCount + 1) % 256 }
    (⟨idx⟩, storeEn idx false s1)
  else
    (⟨INVALID_PWM⟩, s)

/-- Run `n` constructions in sequence; the handles come back in construction
order. -/
def constructN : Nat → State → List Handle × State
  | 0, s => ([], s)
  | n + 1, s =>
    let r := construct s
    let rest := constructN n r.2
    (r.1 :: rest.1, rest.2)

/-- Member `enable()`:
`pwms[pwmIndex].settings.en = true;`
`PWMCR = (1 << 7) | (0 << 6) | (0 << 5) | (pwmIndex & 0x1f);`. -/
def enable (h : Handle) (s : State) : State :=
  let s1 := storeEn h.pwmIndex true s
  writeReg .PWMCR ((1 <<< 7) ||| (0 <<< 6) ||| (0 <<< 5) ||| (h.pwmIndex &&& 0x1f)) s1

/-- Member `disable()`:
`pwms[pwmIndex].settings.en = false;`
`PWMCR = (0 << 7) | (1 << 6) | (0 << 5) | (pwmIndex & 0x1f);`. -/
def disable (h : Handle) (s : State) : State :=
  let s1 := storeEn h.pwmIndex false s
  writeReg .PWMCR ((0 <<< 7) ||| (1 <<< 6) ||| (0 <<< 5) ||| (h.pwmIndex &&& 0x1f)) s1

/-- Member `update()`:
`PWMCR = (1 << 7) | (0 << 6) | (1 << 5) | (pwmIndex & 0x1f);`. -/
def update (h : Handle) (s : State) : State :=
  writeReg .PWMCR ((1 <<< 7) ||| (0 <<< 6) ||| (1 <<< 5) ||| (h.pwmIndex &&& 0x1f)) s

/-- Conversion `(uint16_t) x` of a `float` value `x`: the fraction is dropped
(rounding toward zero). C++ defines the result when the truncated value lies in
`0 .. 65535`; for the other values this definition takes the truncated value
modulo `2 ^ 16`. -/
def toUInt16 (x : ℚ) : Nat :=
  (Int.tdiv x.num x.den % 65536).toNat

/-- Member `setPulseWidth(float pulseWidth)`:
`uint16_t pw16 = (uint16_t)(pulseWidth * 16);`
`PWMPWH = (uint8_t)(pw16 >> 4); PWMPWL = (uint8_t)(pw16 & 0x000f); update();`. -/
def setPulseWidth (pulseWidth : ℚ) (h : Handle) (s : State) : State :=
  let pw16 := toUInt16 (pulseWidth * 16)
  let s1 := writeReg .PWMPWH ((pw16 >>> 4) % 256) s
  let s2 := writeReg .PWMPWL ((pw16 &&& 0x000f) % 256) s1
  update h s2

/-- Member `setPeriod(float period)`:
`uint16_t per16 = (uint16_t)(period * 16);`
`PWMPERH = (uint8_t)(per16 >> 4); PWMPERL = (uint8_t)(per16 & 0x000f); update();`. -/
def setPeriod (period : ℚ) (h : Handle) (s : State) : State :=
  let per16 := toUInt16 (period * 16)
  let s1 := writeReg .PWMPERH ((per16 >>> 4) % 256) s
  let s2 := writeReg .PWMPERL ((per16 &&& 0x000f) % 256) s1
  update h s2

/-- Member `getPulseWidth()`:
`ret = (PWMPWH << 4); ret &= (PWMPWL & 0x000f); ret = ret / 16; return ret;`.
The `&=` is taken on the integer value held in `ret` (C++ has no bitwise AND
on a `float`); the final division is the `float` one. The state comes back
with the result so that the absence of stores is visible. -/
def getPulseWidth (_h : Handle) (s : State) : ℚ × State :=
  let ret : Nat := s.PWMPWH <<< 4
  let ret : Nat := ret &&& (s.PWMPWL &&& 0x000f)
  ((ret : ℚ) / 16, s)

/-- Member `getPeriod()`:
`ret = (PWMPERH << 4); ret &= (PWMPERL & 0x000f); ret = ret / 16; return ret;`,
read like `getPulseWidth`. -/
def getPeriod (_h : Handle) (s : State) : ℚ × State :=
  let ret : Nat := s.PWMPERH <<< 4
  let ret : Nat := ret &&& (s.PWMPERL &&& 0x000f)
  ((ret : ℚ) / 16, s)

/-- Member `isEnabled()`: `return pwms[pwmIndex].settings.en;`. -/
def isEnabled (h : Handle) (s : State) : Option Bool :=
  loadEn h.pwmIndex s

/-- One call on the driver: a construction or a member call on a handle. -/
inductive Op where
  | construct
  | enable (h : Handle)
  | disable (h : Handle)
  | setPulseWidth (v : ℚ) (h : Handle)
  | setPeriod (v : ℚ) (h : Handle)
  | getPulseWidth (h : Handle)
  | getPeriod (h : Handle)
  | isEnabled (h : Handle)
  | update (h : Handle)

/-- The handle a call is made on (`none` for a construction). -/
def Op.handle? : Op → Option Handle
  | .construct => none
  | .enable h => some h
  | .disable h => some h
  | .setPulseWidth _ h => some h
  | .setPeriod _ h => some h
  | .getPulseWidth h => some h
  | .getPeriod h => some h
  | .isEnabled h => some h
  | .update h => some h

/-- A call is on a valid handle when its index lies inside the table. -/
def Op.OnValid (op : Op) : Prop :=
  match op.handle? with
  | none => True
  | some h => h.pwmIndex < MAX_PWMS

/-- A call changes the stored flag of slot `i` on purpose: `enable()` or
`disable()` on a handle with index `i`. -/
def Op.Toggles (i : Nat) : Op → Prop
  | .enable h => h.pwmIndex = i
  | .disable h => h.pwmIndex = i
  | _ => False

instance (op : Op) : Decidable op.OnValid := by
  unfold Op.OnValid
  cases op.handle? <;> exact inferInstance

instance (i : Nat) (op : Op) : Decidable (op.Toggles i) := by
  cases op <;> unfold Op.Toggles <;> exact inferInstance

/-- Decoding as the specification words it: the high byte shifted left by 4
bits, bitwise-ANDed with the low nibble, divided by 16. -/
def decodeSpec (high low : Nat) : ℚ :=
  ((Nat.land (high * 2 ^ 4) (low % 16) : Nat) : ℚ) / 16

/-- Effect of one call on the state (results are dropped). -/
def step (op : Op) (s : State) : State :=
  match op with
  | .construct => (construct s).2
  | .enable h => enable h s
  | .disable h => disable h s
  | .setPulseWidth v h => setPulseWidth v h s
  | .setPeriod v h => setPeriod v h s
  | .getPulseWidth h => (getPulseWidth h s).2
  | .getPeriod h => (getPeriod h s).2
  | .isEnabled _ => s
  | .update h => update h s

/-- Effect of a sequence of calls, first call first. -/
def run (ops : List Op) (s : State) : State :=
  ops.foldl (fun t op => step op t) s

/-- The stored flag of slot `i` is `false` and slot `i` has been handed out. -/
def FreshAt (i : Nat) (s : State) : Prop :=
  s.pwms.length = MAX_PWMS ∧ i < s.PwmCount ∧ loadEn i s = some false

/-- Member functions of `XLR8PWM`, by name, with the argument where there is
one. -/
inductive Method where
  | enable
  | disable
  | setPulseWidth (v : ℚ)
  | setPeriod (v : ℚ)
  | getPulseWidth
  | getPeriod
  | isEnabled
  | update

/-- A member function applied to an object, as a call of `Op`. -/
def Method.toOp : Method → Handle → Op
  | .enable, h => .enable h
  | .disable, h => .disable h
  | .setPulseWidth v, h => .setPulseWidth v h
  | .setPeriod v, h => .setPeriod v h
  | .getPulseWidth, h => .getPulseWidth h
  | .getPeriod, h => .getPeriod h
  | .isEnabled, h => .isEnabled h
  | .update, h => .update h

/-- Member call on the object `this`. No member function of `XLR8PWM.cpp`
assigns to `pwmIndex` (only the constructor does), so the object comes back as
it went in, next to the new process-wide state. -/
def callMember (m : Method) (this : Handle) (s : State) : Handle × State :=
  (this, step (m.toOp this) s)

/-- A running program: the process-wide state and the `XLR8PWM` objects
constructed so far, in construction order. -/
structure World where
  st : State
  handles : List Handle

/-- What a program does next: construct one more object, or call a member
function on the object at position `k`. -/
inductive Call where
  | construct
  | member (k : Nat) (m : Method)

/-- Effect of one program action. A construction appends the new object; a
member call stores back the object it was made on; a call on a position with no
object does nothing. -/
def World.exec (c : Call) (w : World) : World :=
  match c with
  | .construct =>
    let r := construct w.st
    { st := r.2, handles := w.handles ++ [r.1] }
  | .member k m =>
    match w.handles[k]? with
    | some h =>
      let r := callMember m h w.st
      { st := r.2, handles := w.handles.set k r.1 }
    | none => w

/-- Effect of a sequence of program actions, first action first. -/
def World.execAll (cs : List Call) (w : World) : World :=
  cs.foldl (fun u c => u.exec c) w

/-- A program action is on a valid handle: a construction, or a member call on
an existing object whose index lies inside the table. -/
def Call.OnValid (c : Call) (w : World) : Prop :=
  match c with
  | .construct => True
  | .member k _ =>
    match w.handles[k]? with
    | some h => h.pwmIndex < MAX_PWMS
    | none => False

instance (c : Call) (w : World) : Decidable (c.OnValid w) := by
  cases c with
  | construct => exact isTrue trivial
  | member k m =>
    show Decidable (match w.handles[k]? with
      | some h => h.pwmIndex < MAX_PWMS
      | none => False)
    cases w.handles[k]? <;> exact inferInstance

/-- A world with two objects (indices 0 and 1) constructed from the start
state. -/
def twoChannels : World :=
  World.execAll [.construct, .construct] { st := startState 0 0 0 0 0, handles := [] }

/-- Worlds a program can be in: it starts with `PwmCount = 0`, a cleared table
and no object, and proceeds by constructions and member calls on valid
handles. -/
inductive Reachable : World → Prop where
  | start (cr perh perl pwh pwl : Nat) :
    Reachable { st := startState cr perh perl pwh pwl, handles := [] }
  | call (w : World) (c : Call) : Reachable w → c.OnValid w → Reachable (w.exec c)

/-- Two handles do not share a valid index. -/
def DistinctValid (x y : Handle) : Prop :=
  x.pwmIndex < MAX_PWMS → y.pwmIndex < MAX_PWMS → x.pwmIndex ≠ y.pwmIndex

/-- Allocator invariant of a world: the counter is within capacity, every
object has index 255 or an index below the counter, and no two objects share a
valid index. -/
def AllocInv (w : World) : Prop :=
  w.st.PwmCount ≤ MAX_PWMS ∧
  (∀ h ∈ w.handles, h.pwmIndex = INVALID_PWM ∨ h.pwmIndex < w.st.PwmCount) ∧
  w.handles.Pairwise DistinctValid

/-! ## Basic facts about the state updates -/

theorem storeEn_PwmCount (i : Nat) (b : Bool) (s : State) :
    (storeEn i b s).PwmCount = s.PwmCount := by
  unfold storeEn
  split <;> rfl

theorem writeReg_PwmCount (r : Reg) (v : Nat) (s : State) :
    (writeReg r v s).PwmCount = s.PwmCount := by
  cases r <;> rfl

theorem writeReg_pwms (r : Reg) (v : Nat) (s : State) :
    (writeReg r v s).pwms = s.pwms := by
  cases r <;> rfl

theorem construct_of_lt (s : State) (h : s.PwmCount < MAX_PWMS) :
    (construct s).1 = ⟨s.PwmCount⟩ ∧ (construct s).2.PwmCount = s.PwmCount + 1 := by
  have h256 : (s.PwmCount + 1) % 256 = s.PwmCount + 1 := by
    apply Nat.mod_eq_of_lt
    unfold MAX_PWMS at h
    omega
  simp [construct, h, storeEn_PwmCount, h256]

theorem construct_of_ge (s : State) (h : MAX_PWMS ≤ s.PwmCount) :
    construct s = (⟨INVALID_PWM⟩, s) := by
  simp [construct, Nat.not_lt.mpr h]

theorem constructN_from (n : Nat) :
    ∀ s : State, s.PwmCount + n ≤ MAX_PWMS →
      (constructN n s).1 = (List.range' s.PwmCount n).map Handle.mk ∧
      (constructN n s).2.PwmCount = s.PwmCount + n := by
  induction n with
  | zero => intro s _; simp [constructN]
  | succ n ih =>
    intro s hs
    have hlt : s.PwmCount < MAX_PWMS := by omega
    obtain ⟨h1, h2⟩ := construct_of_lt s hlt
    have hs2 : (construct s).2.PwmCount + n ≤ MAX_PWMS := by omega
    obtain ⟨ih1, ih2⟩ := ih (construct s).2 hs2
    constructor
    · simp only [constructN, ih1, h1, h2, List.range'_succ, List.map_cons]
    · simp only [constructN, ih2, h2]
      omega

theorem storeEn_writes (i : Nat) (b : Bool) (s : State) :
    (storeEn i b s).writes = s.writes := by
  unfold storeEn
  split <;> rfl

theorem storeEn_length (i : Nat) (b : Bool) (s : State) :
    (storeEn i b s).pwms.length = s.pwms.length := by
  unfold storeEn
  split
  · simp
  · rfl

theorem loadEn_storeEn_same (i : Nat) (b : Bool) (s : State) (hi : i < MAX_PWMS)
    (hlen : s.pwms.length = MAX_PWMS) : loadEn i (storeEn i b s) = some b := by
  have hi2 : i < s.pwms.length := by omega
  simp [loadEn, storeEn, hi, hi2]

theorem loadEn_storeEn_other (i j : Nat) (b : Bool) (s : State) (hij : j ≠ i) :
    loadEn i (storeEn j b s) = loadEn i s := by
  unfold loadEn storeEn
  by_cases hi : i < MAX_PWMS <;> by_cases hj : j < MAX_PWMS <;> simp [hi, hj, hij]

theorem loadEn_writeReg (i : Nat) (r : Reg) (v : Nat) (s : State) :
    loadEn i (writeReg r v s) = loadEn i s := by
  unfold loadEn
  rw [writeReg_pwms]

theorem writeReg_writes (r : Reg) (v : Nat) (s : State) :
    (writeReg r v s).writes = s.writes ++ [(r, v % 256)] := by
  cases r <;> rfl

theorem writeReg_PWMCR (v : Nat) (s : State) :
    (writeReg .PWMCR v s).PWMCR = v % 256 := rfl

/-- Bytes of the three commands for an index inside the table. -/
theorem command_bytes (i : Nat) (hi : i < 32) :
    ((1 <<< 7) ||| (0 <<< 6) ||| (0 <<< 5) ||| (i &&& 0x1f)) % 256 = 0x80 ||| i ∧
    ((0 <<< 7) ||| (1 <<< 6) ||| (0 <<< 5) ||| (i &&& 0x1f)) % 256 = 0x40 ||| i ∧
    ((1 <<< 7) ||| (0 <<< 6) ||| (1 <<< 5) ||| (i &&& 0x1f)) % 256 = 0xA0 ||| i := by
  interval_cases i <;> decide

theorem loadEn_step (i : Nat) (op : Op) (s : State) (hc : i < s.PwmCount)
    (ht : ¬ op.Toggles i) : loadEn i (step op s) = loadEn i s := by
  cases op with
  | construct =>
    show loadEn i (construct s).2 = loadEn i s
    unfold construct
    split
    · exact loadEn_storeEn_other i _ _ _ (Nat.ne_of_gt hc)
    · rfl
  | enable h =>
    have hne : h.pwmIndex ≠ i := ht
    simp only [step, enable, loadEn_writeReg]
    exact loadEn_storeEn_other i _ _ _ hne
  | disable h =>
    have hne : h.pwmIndex ≠ i := ht
    simp only [step, disable, loadEn_writeReg]
    exact loadEn_storeEn_other i _ _ _ hne
  | setPulseWidth v h => simp only [step, setPulseWidth, update, loadEn_writeReg]
  | setPeriod v h => simp only [step, setPeriod, update, loadEn_writeReg]
  | getPulseWidth h => rfl
  | getPeriod h => rfl
  | isEnabled h => rfl
  | update h => simp only [step, update, loadEn_writeReg]

theorem step_length (op : Op) (s : State) :
    (step op s).pwms.length = s.pwms.length := by
  cases op with
  | construct =>
    show (construct s).2.pwms.length = s.pwms.length
    unfold construct
    split
    · simp only [storeEn_length]
    · rfl
  | enable h => simp only [step, enable, writeReg_pwms, storeEn_length]
  | disable h => simp only [step, disable, writeReg_pwms, storeEn_length]
  | setPulseWidth v h => simp only [step, setPulseWidth, update, writeReg_pwms]
  | setPeriod v h => simp only [step, setPeriod, update, writeReg_pwms]
  | getPulseWidth h => rfl
  | getPeriod h => rfl
  | isEnabled h => rfl
  | update h => simp only [step, update, writeReg_pwms]

theorem step_PwmCount_le (op : Op) (s : State) :
    s.PwmCount ≤ (step op s).PwmCount := by
  cases op with
  | construct =>
    by_cases h : s.PwmCount < MAX_PWMS
    · have := (construct_of_lt s h).2
      simp only [step]
      omega
    · simp only [step, construct_of_ge s (Nat.not_lt.mp h)]
      exact Nat.le_refl _
  | enable h => simp only [step, enable, writeReg_PwmCount, storeEn_PwmCount, Nat.le_refl]
  | disable h => simp only [step, disable, writeReg_PwmCount, storeEn_PwmCount, Nat.le_refl]
  | setPulseWidth v h => simp only [step, setPulseWidth, update, writeReg_PwmCount, Nat.le_refl]
  | setPeriod v h => simp only [step, setPeriod, update, writeReg_PwmCount, Nat.le_refl]
  | getPulseWidth h => exact Nat.le_refl _
  | getPeriod h => exact Nat.le_refl _
  | isEnabled h => exact Nat.le_refl _
  | update h => simp only [step, update, writeReg_PwmCount, Nat.le_refl]

theorem run_cons (op : Op) (ops : List Op) (s : State) :
    run (op :: ops) s = run ops (step op s) := rfl

theorem run_PwmCount_le (ops : List Op) :
    ∀ s : State, s.PwmCount ≤ (run ops s).PwmCount := by
  induction ops with
  | nil => intro s; exact Nat.le_refl _
  | cons op ops ih =>
    intro s
    rw [run_cons]
    exact Nat.le_trans (step_PwmCount_le op s) (ih _)

theorem freshAt_run (i : Nat) (ops : List Op) :
    ∀ s : State, FreshAt i s → (∀ op ∈ ops, ¬ op.Toggles i) → FreshAt i (run ops s) := by
  induction ops with
  | nil => intro s hs _; exact hs
  | cons op ops ih =>
    intro s hs hops
    rw [run_cons]
    apply ih
    · obtain ⟨h1, h2, h3⟩ := hs
      have hop : ¬ op.Toggles i := hops op (List.mem_cons_self _ _)
      refine ⟨?_, ?_, ?_⟩
      · rw [step_length]; exact h1
      · exact Nat.lt_of_lt_of_le h2 (step_PwmCount_le op s)
      · rw [loadEn_step i op s h2 hop]; exact h3
    · intro op2 hop2
      exact hops op2 (List.mem_cons_of_mem _ hop2)

theorem freshAt_construct (s : State) (hlen : s.pwms.length = MAX_PWMS)
    (hc : s.PwmCount < MAX_PWMS) : FreshAt s.PwmCount (construct s).2 := by
  refine ⟨?_, ?_, ?_⟩
  · simp only [construct, hc, if_true, storeEn_length]
    exact hlen
  · rw [(construct_of_lt s hc).2]; omega
  · simp only [construct, hc, if_true]
    exact loadEn_storeEn_same _ _ _ hc hlen

theorem writeReg_PWMPERH (v : Nat) (s : State) :
    (writeReg .PWMPERH v s).PWMPERH = v % 256 := rfl

theorem writeReg_PWMPERL (v : Nat) (s : State) :
    (writeReg .PWMPERL v s).PWMPERL = v % 256 := rfl

theorem writeReg_PWMPWH (v : Nat) (s : State) :
    (writeReg .PWMPWH v s).PWMPWH = v % 256 := rfl

theorem writeReg_PWMPWL (v : Nat) (s : State) :
    (writeReg .PWMPWL v s).PWMPWL = v % 256 := rfl

/-- The low-nibble byte of a 16-bit value: `(uint8_t)(x & 0x000f)`. -/
theorem low_nibble (x : Nat) : (x &&& 0x000f) % 256 % 256 = x % 16 := by
  have h : x &&& 0x000f = x % 16 := Nat.and_pow_two_sub_one_eq_mod x 4
  rw [h]
  omega

/-- The high byte of a 16-bit value: `(uint8_t)(x >> 4)`. -/
theorem high_byte (x : Nat) : (x >>> 4) % 256 % 256 = (x >>> 4) % 256 :=
  Nat.mod_mod _ _

/-- Register contents after `setPeriod`, in terms of the encoded value. -/
theorem setPeriod_regs (v : ℚ) (h : Handle) (s : State) :
    (setPeriod v h s).PWMPERH = (toUInt16 (v * 16) >>> 4) % 256 ∧
    (setPeriod v h s).PWMPERL = toUInt16 (v * 16) % 16 := by
  constructor
  · show (((toUInt16 (v * 16)) >>> 4) % 256) % 256 = _
    exact high_byte _
  · show ((toUInt16 (v * 16) &&& 0x000f) % 256) % 256 = _
    exact low_nibble _

/-- Register contents after `setPulseWidth`, in terms of the encoded value. -/
theorem setPulseWidth_regs (v : ℚ) (h : Handle) (s : State) :
    (setPulseWidth v h s).PWMPWH = (toUInt16 (v * 16) >>> 4) % 256 ∧
    (setPulseWidth v h s).PWMPWL = toUInt16 (v * 16) % 16 := by
  constructor
  · show (((toUInt16 (v * 16)) >>> 4) % 256) % 256 = _
    exact high_byte _
  · show ((toUInt16 (v * 16) &&& 0x000f) % 256) % 256 = _
    exact low_nibble _

/-- Register stores of `setPeriod`, in program order. -/
theorem setPeriod_writes (v : ℚ) (h : Handle) (s : State) :
    (setPeriod v h s).writes = s.writes ++
      [(Reg.PWMPERH, (toUInt16 (v * 16) >>> 4) % 256),
       (Reg.PWMPERL, toUInt16 (v * 16) % 16),
       (Reg.PWMCR, ((1 <<< 7) ||| (0 <<< 6) ||| (1 <<< 5) ||| (h.pwmIndex &&& 0x1f)) % 256)] := by
  simp only [setPeriod, update, writeReg_writes, low_nibble, high_byte, List.append_assoc,
    List.cons_append, List.nil_append]

/-- Register stores of `setPulseWidth`, in program order. -/
theorem setPulseWidth_writes (v : ℚ) (h : Handle) (s : State) :
    (setPulseWidth v h s).writes = s.writes ++
      [(Reg.PWMPWH, (toUInt16 (v * 16) >>> 4) % 256),
       (Reg.PWMPWL, toUInt16 (v * 16) % 16),
       (Reg.PWMCR, ((1 <<< 7) ||| (0 <<< 6) ||| (1 <<< 5) ||| (h.pwmIndex &&& 0x1f)) % 256)] := by
  simp only [setPulseWidth, update, writeReg_writes, low_nibble, high_byte, List.append_assoc,
    List.cons_append, List.nil_append]

/-- On the range where C++ defines the conversion for non-negative values,
`toUInt16` is the integer part. -/
theorem toUInt16_of_range (x : ℚ) (h0 : 0 ≤ x) (h1 : x < 65536) :
    toUInt16 x = ⌊x⌋₊ := by
  have htd : Int.tdiv x.num x.den = ⌊x⌋ := by
    rw [Rat.floor_def]
    exact Int.tdiv_eq_ediv (Rat.num_nonneg.mpr h0) (Int.ofNat_nonneg _)
  have hf0 : 0 ≤ ⌊x⌋ := Int.floor_nonneg.mpr h0
  have hf1 : ⌊x⌋ < 65536 := by
    rw [Int.floor_lt]
    exact_mod_cast h1
  unfold toUInt16
  rw [htd, Int.emod_eq_of_lt hf0 hf1]
  exact Int.floor_toNat x

/-- Values of `toUInt16` on naturals below `2 ^ 16`. -/
theorem toUInt16_natCast (n : Nat) (hn : n < 65536) : toUInt16 (n : ℚ) = n := by
  rw [toUInt16_of_range _ (Nat.cast_nonneg n) (by exact_mod_cast hn)]
  exact Nat.floor_natCast n

/-- The decoded integer of the getters is zero whatever the registers hold. -/
theorem shifted_and_nibble (H L : Nat) : (H <<< 4) &&& (L &&& 0x000f) = 0 := by
  apply Nat.eq_of_testBit_eq
  intro k
  simp only [Nat.testBit_and, Nat.testBit_shiftLeft, Nat.zero_testBit]
  by_cases hk : k < 4
  · have : ¬ (k ≥ 4) := by omega
    simp [this]
  · have h15 : Nat.testBit 0x000f k = false := by
      apply Nat.testBit_lt_two_pow
      calc 0x000f < 2 ^ 4 := by decide
        _ ≤ 2 ^ k := Nat.pow_le_pow_right (by decide) (by omega)
    simp [h15]

/-- Adding `2 ^ 12` to an encoded value changes neither stored byte. -/
theorem bytes_add_4096 (x : Nat) :
    ((x + 4096) >>> 4) % 256 = (x >>> 4) % 256 ∧
    ((x + 4096) &&& 0x000f) % 256 = (x &&& 0x000f) % 256 := by
  have h1 : x &&& 0x000f = x % 16 := Nat.and_pow_two_sub_one_eq_mod x 4
  have h2 : (x + 4096) &&& 0x000f = (x + 4096) % 16 := Nat.and_pow_two_sub_one_eq_mod _ 4
  rw [h1, h2, Nat.shiftRight_eq_div_pow, Nat.shiftRight_eq_div_pow]
  constructor <;> omega

/-- Encoded value of `v + 256` on the range where both conversions are
defined. -/
theorem toUInt16_add_256 (v : ℚ) (h0 : 0 ≤ v) (h1 : v + 256 < 4096) :
    toUInt16 ((v + 256) * 16) = toUInt16 (v * 16) + 4096 := by
  have hv0 : 0 ≤ v * 16 := by linarith
  have hv1 : v * 16 < 65536 := by linarith
  have hw0 : 0 ≤ (v + 256) * 16 := by linarith
  have hw1 : (v + 256) * 16 < 65536 := by linarith
  rw [toUInt16_of_range _ hv0 hv1, toUInt16_of_range _ hw0 hw1]
  have hsum : (v + 256) * 16 = v * 16 + ((4096 : ℕ) : ℚ) := by
    push_cast
    ring
  rw [hsum]
  exact Nat.floor_add_nat hv0 4096

/-- The command byte of `update()` is the last register store of the setters. -/
theorem setters_PWMCR (v : ℚ) (h : Handle) (s : State) :
    (setPulseWidth v h s).PWMCR =
      ((1 <<< 7) ||| (0 <<< 6) ||| (1 <<< 5) ||| (h.pwmIndex &&& 0x1f)) % 256 ∧
    (setPeriod v h s).PWMCR =
      ((1 <<< 7) ||| (0 <<< 6) ||| (1 <<< 5) ||| (h.pwmIndex &&& 0x1f)) % 256 :=
  ⟨rfl, rfl⟩

theorem storeEn_outOfTable_inside (i : Nat) (b : Bool) (s : State) (hi : i < MAX_PWMS) :
    (storeEn i b s).outOfTable = s.outOfTable ∧ (storeEn i b s).pwms = s.pwms.set i b := by
  simp only [storeEn, hi, if_true, and_self]

theorem storeEn_outOfTable_outside (i : Nat) (b : Bool) (s : State) (hi : ¬ i < MAX_PWMS) :
    (storeEn i b s).outOfTable = s.outOfTable ++ [i] ∧ (storeEn i b s).pwms = s.pwms := by
  simp only [storeEn, hi, if_false, and_self]

theorem writeReg_outOfTable (r : Reg) (v : Nat) (s : State) :
    (writeReg r v s).outOfTable = s.outOfTable := by
  cases r <;> rfl

/-- Storing back the element a position already holds leaves a list as it is. -/
theorem list_set_same {α : Type} (l : List α) (k : Nat) (x : α) (hk : l[k]? = some x) :
    l.set k x = l := by
  apply List.ext_getElem?
  intro j
  rw [List.getElem?_set]
  obtain ⟨hlt, _⟩ := List.getElem?_eq_some_iff.mp hk
  by_cases hkj : k = j
  · subst hkj
    simp only [if_true, hlt, hk]
  · simp only [hkj, if_false]

theorem exec_member_handles (w : World) (k : Nat) (m : Method) :
    (w.exec (.member k m)).handles = w.handles := by
  simp only [World.exec]
  split
  · rename_i g hk
    exact list_set_same w.handles k g hk
  · rfl

theorem exec_construct (w : World) :
    (w.exec .construct).handles = w.handles ++ [(construct w.st).1] ∧
    (w.exec .construct).st = (construct w.st).2 :=
  ⟨rfl, rfl⟩

/-- A member call leaves `PwmCount` as it is. -/
theorem member_PwmCount (m : Method) (h : Handle) (s : State) :
    (step (m.toOp h) s).PwmCount = s.PwmCount := by
  cases m with
  | enable => simp only [Method.toOp, step, enable, writeReg_PwmCount, storeEn_PwmCount]
  | disable => simp only [Method.toOp, step, disable, writeReg_PwmCount, storeEn_PwmCount]
  | setPulseWidth v => simp only [Method.toOp, step, setPulseWidth, update, writeReg_PwmCount]
  | setPeriod v => simp only [Method.toOp, step, setPeriod, update, writeReg_PwmCount]
  | getPulseWidth => rfl
  | getPeriod => rfl
  | isEnabled => rfl
  | update => simp only [Method.toOp, step, update, writeReg_PwmCount]

theorem exec_member_PwmCount (w : World) (k : Nat) (m : Method) :
    (w.exec (.member k m)).st.PwmCount = w.st.PwmCount := by
  simp only [World.exec]
  split
  · rename_i g hk
    exact member_PwmCount m g w.st
  · rfl

theorem allocInv_exec (w : World) (c : Call) (hw : AllocInv w) : AllocInv (w.exec c) := by
  obtain ⟨hcap, hidx, hpair⟩ := hw
  cases c with
  | member k m =>
    refine ⟨?_, ?_, ?_⟩
    · rw [exec_member_PwmCount]; exact hcap
    · rw [exec_member_PwmCount, exec_member_handles]; exact hidx
    · rw [exec_member_handles]; exact hpair
  | construct =>
    obtain ⟨hh, hs⟩ := exec_construct w
    rw [AllocInv, hh, hs]
    by_cases hc : w.st.PwmCount < MAX_PWMS
    · obtain ⟨h1, h2⟩ := construct_of_lt w.st hc
      rw [h1, h2]
      refine ⟨hc, ?_, ?_⟩
      · intro g hg
        rcases List.mem_append.mp hg with hold | hnew
        · rcases hidx g hold with h255 | hlt
          · exact Or.inl h255
          · exact Or.inr (Nat.lt_succ_of_lt hlt)
        · rw [List.mem_singleton.mp hnew]
          exact Or.inr (Nat.lt_succ_self _)
      · rw [List.pairwise_append]
        refine ⟨hpair, List.pairwise_singleton _ _, ?_⟩
        intro a ha b hb
        rw [List.mem_singleton.mp hb]
        intro hav _
        rcases hidx a ha with h255 | hlt
        · rw [h255] at hav
          have hno : ¬ INVALID_PWM < MAX_PWMS := by decide
          exact absurd hav hno
        · exact Nat.ne_of_lt hlt
    · have hge : MAX_PWMS ≤ w.st.PwmCount := Nat.not_lt.mp hc
      rw [construct_of_ge w.st hge]
      refine ⟨hcap, ?_, ?_⟩
      · intro g hg
        rcases List.mem_append.mp hg with hold | hnew
        · exact hidx g hold
        · rw [List.mem_singleton.mp hnew]
          exact Or.inl rfl
      · rw [List.pairwise_append]
        refine ⟨hpair, List.pairwise_singleton _ _, ?_⟩
        intro a _ b hb
        rw [List.mem_singleton.mp hb]
        intro _ hbv
        have h255 : ¬ INVALID_PWM < MAX_PWMS := by decide
        exact absurd hbv h255

theorem allocInv_of_reachable (w : World) (hr : Reachable w) : AllocInv w := by
  induction hr with
  | start cr perh perl pwh pwl =>
    refine ⟨Nat.zero_le _, ?_, List.Pairwise.nil⟩
    intro h hh
    exact absurd hh (List.not_mem_nil h)
  | call w c _ _ ih => exact allocInv_exec w c ih

/-! ## Claims -/

/-- C1: from a state with `PwmCount = 0`, for every `N ≤ 32`, `N` constructions
in sequence return the handles with indices `0, 1, ..., N-1` in construction
order (the `k`-th handle has `pwmIndex = k`) and leave `PwmCount = N`. -/
theorem c1_sequential_indices (s : State) (h0 : s.PwmCount = 0) (N : Nat)
    (hN : N ≤ MAX_PWMS) :
    (constructN N s).1 = (List.range N).map Handle.mk ∧
    (∀ k, k < N → (constructN N s).1[k]? = some ⟨k⟩) ∧
    (constructN N s).2.PwmCount = N := by
  have hs : s.PwmCount + N ≤ MAX_PWMS := by omega
  obtain ⟨h1, h2⟩ := constructN_from N s hs
  rw [h0] at h1 h2
  rw [← List.range_eq_range'] at h1
  refine ⟨h1, ?_, by omega⟩
  intro k hk
  rw [h1]
  simp [hk]

/-- C1 at `N = 32` from the start state with cleared registers. -/
theorem c1_sequential_indices_witness :
    (startState 0 0 0 0 0).PwmCount = 0 ∧ 32 ≤ MAX_PWMS ∧
    ((constructN 32 (startState 0 0 0 0 0)).1 = (List.range 32).map Handle.mk ∧
     (∀ k, k < 32 → (constructN 32 (startState 0 0 0 0 0)).1[k]? = some ⟨k⟩) ∧
     (constructN 32 (startState 0 0 0 0 0)).2.PwmCount = 32) :=
  ⟨rfl, by decide, c1_sequential_indices (startState 0 0 0 0 0) rfl 32 (by decide)⟩

/-- C2: in every state with `PwmCount ≥ 32` a construction returns the handle
with `pwmIndex = 255` and the state it returns is the state it was given:
`PwmCount`, the table, the five registers and the write log are all
unchanged. -/
theorem c2_exhausted_no_mutation (s : State) (h : MAX_PWMS ≤ s.PwmCount) :
    (construct s).1.pwmIndex = 255 ∧ (construct s).2 = s := by
  rw [construct_of_ge s h]
  exact ⟨rfl, rfl⟩

/-- C2 at the exhausted state: a construction requested when all 32 slots are
taken. -/
theorem c2_exhausted_no_mutation_witness :
    MAX_PWMS ≤ fullState.PwmCount ∧
    (construct fullState).1.pwmIndex = 255 ∧ (construct fullState).2 = fullState :=
  ⟨by decide, c2_exhausted_no_mutation fullState (by decide)⟩

/-- C3: for a handle with a valid index (`< 32`) and every state whose table
has its 32 entries: `isEnabled()` right after `enable()` returns `true`;
`isEnabled()` right after `disable()` returns `false`; and when the handle is
the one a construction has just returned, `isEnabled()` returns `false` after
any sequence of calls that contains no `enable()`/`disable()` on that index
(the empty sequence included). -/
theorem c3_isEnabled_after (h : Handle) (s : State) (hi : h.pwmIndex < MAX_PWMS)
    (hlen : s.pwms.length = MAX_PWMS) :
    isEnabled h (enable h s) = some true ∧
    isEnabled h (disable h s) = some false ∧
    ((construct s).1 = h →
      isEnabled h (construct s).2 = some false ∧
      ∀ ops : List Op, (∀ op ∈ ops, op.OnValid ∧ ¬ op.Toggles h.pwmIndex) →
        isEnabled h (run ops (construct s).2) = some false) := by
  refine ⟨?_, ?_, ?_⟩
  · simp only [isEnabled, enable, loadEn_writeReg]
    exact loadEn_storeEn_same _ _ _ hi hlen
  · simp only [isEnabled, disable, loadEn_writeReg]
    exact loadEn_storeEn_same _ _ _ hi hlen
  · intro hc
    have hlt : s.PwmCount < MAX_PWMS := by
      by_contra hge
      rw [construct_of_ge s (Nat.not_lt.mp hge)] at hc
      rw [← hc] at hi
      have h255 : ¬ INVALID_PWM < MAX_PWMS := by decide
      exact h255 hi
    have hidx : h.pwmIndex = s.PwmCount := by
      rw [← hc, (construct_of_lt s hlt).1]
    have hfresh := freshAt_construct s hlen hlt
    rw [← hidx] at hfresh
    refine ⟨hfresh.2.2, ?_⟩
    intro ops hops
    exact (freshAt_run h.pwmIndex ops _ hfresh (fun op hop => (hops op hop).2)).2.2

/-- C3 at the first handle constructed from the start state, with three calls
(a further construction, `enable()` on another channel, `setPeriod(2)` on this
one) between the construction and the query. -/
theorem c3_isEnabled_after_witness :
    (⟨0⟩ : Handle).pwmIndex < MAX_PWMS ∧
    (startState 0 0 0 0 0).pwms.length = MAX_PWMS ∧
    isEnabled ⟨0⟩ (enable ⟨0⟩ (startState 0 0 0 0 0)) = some true ∧
    isEnabled ⟨0⟩ (disable ⟨0⟩ (startState 0 0 0 0 0)) = some false ∧
    isEnabled ⟨0⟩ (construct (startState 0 0 0 0 0)).2 = some false ∧
    isEnabled ⟨0⟩ (run [Op.construct, Op.enable ⟨1⟩, Op.setPeriod 2 ⟨0⟩]
      (construct (startState 0 0 0 0 0)).2) = some false :=
  have h := c3_isEnabled_after ⟨0⟩ (startState 0 0 0 0 0) (by decide) (by decide)
  ⟨by decide, by decide, h.1, h.2.1, (h.2.2 rfl).1,
    (h.2.2 rfl).2 [Op.construct, Op.enable ⟨1⟩, Op.setPeriod 2 ⟨0⟩] (by decide)⟩

/-- C4: for every index `i` in `0..31` and every state, the byte stored into
`PWMCR` (the single register store of the call) is `0x80 | i` for `enable()`,
`0x40 | i` for `disable()` and `0xA0 | i` for `update()`; bits 7, 6, 5 of these
bytes are `(1,0,0)`, `(0,1,0)`, `(1,0,1)` and bits 4-0 are `i`. -/
theorem c4_command_bytes (i : Nat) (hi : i < MAX_PWMS) (s : State) :
    ((enable ⟨i⟩ s).writes = s.writes ++ [(Reg.PWMCR, 0x80 ||| i)] ∧
      (enable ⟨i⟩ s).PWMCR = 0x80 ||| i) ∧
    ((disable ⟨i⟩ s).writes = s.writes ++ [(Reg.PWMCR, 0x40 ||| i)] ∧
      (disable ⟨i⟩ s).PWMCR = 0x40 ||| i) ∧
    ((update ⟨i⟩ s).writes = s.writes ++ [(Reg.PWMCR, 0xA0 ||| i)] ∧
      (update ⟨i⟩ s).PWMCR = 0xA0 ||| i) ∧
    ((0x80 ||| i).testBit 7 = true ∧ (0x80 ||| i).testBit 6 = false ∧
      (0x80 ||| i).testBit 5 = false ∧ (0x80 ||| i) % 32 = i ∧ 0x80 ||| i < 256) ∧
    ((0x40 ||| i).testBit 7 = false ∧ (0x40 ||| i).testBit 6 = true ∧
      (0x40 ||| i).testBit 5 = false ∧ (0x40 ||| i) % 32 = i ∧ 0x40 ||| i < 256) ∧
    ((0xA0 ||| i).testBit 7 = true ∧ (0xA0 ||| i).testBit 6 = false ∧
      (0xA0 ||| i).testBit 5 = true ∧ (0xA0 ||| i) % 32 = i ∧ 0xA0 ||| i < 256) := by
  have hi32 : i < 32 := hi
  obtain ⟨he, hd, hu⟩ := command_bytes i hi32
  refine ⟨⟨?_, ?_⟩, ⟨?_, ?_⟩, ⟨?_, ?_⟩, ?_, ?_, ?_⟩
  · simp only [enable, writeReg_writes, storeEn_writes, he]
  · simp only [enable, writeReg_PWMCR, he]
  · simp only [disable, writeReg_writes, storeEn_writes, hd]
  · simp only [disable, writeReg_PWMCR, hd]
  · simp only [update, writeReg_writes, hu]
  · simp only [update, writeReg_PWMCR, hu]
  · interval_cases i <;> decide
  · interval_cases i <;> decide
  · interval_cases i <;> decide

/-- C4 at index 5 from the start state: the bytes are `0x85`, `0x45`, `0xA5`. -/
theorem c4_command_bytes_witness :
    5 < MAX_PWMS ∧
    (enable ⟨5⟩ (startState 0 0 0 0 0)).PWMCR = 0x85 ∧
    (disable ⟨5⟩ (startState 0 0 0 0 0)).PWMCR = 0x45 ∧
    (update ⟨5⟩ (startState 0 0 0 0 0)).PWMCR = 0xA5 :=
  have h := c4_command_bytes 5 (by decide) (startState 0 0 0 0 0)
  ⟨by decide, h.1.2, h.2.1.2, h.2.2.1.2⟩

/-- C5: for every value `v` with `0 ≤ v * 16 < 65536`, `setPeriod(v)` leaves
`PWMPERH = (trunc(v*16) >> 4) mod 256` and `PWMPERL = trunc(v*16) mod 16`
(the integer part, since the value is non-negative), `setPulseWidth(v)` leaves
the same two bytes in `PWMPWH` / `PWMPWL`, and `setPeriod` of `0.0`, `0.0625`,
`4095.9375` gives the pairs `(0x00,0x0)`, `(0x00,0x1)`, `(0xFF,0xF)`. -/
theorem c5_register_encoding (v : ℚ) (h0 : 0 ≤ v * 16) (h1 : v * 16 < 65536)
    (h : Handle) (s : State) :
    ((setPeriod v h s).PWMPERH = (⌊v * 16⌋₊ >>> 4) % 256 ∧
      (setPeriod v h s).PWMPERL = ⌊v * 16⌋₊ % 16) ∧
    ((setPulseWidth v h s).PWMPWH = (⌊v * 16⌋₊ >>> 4) % 256 ∧
      (setPulseWidth v h s).PWMPWL = ⌊v * 16⌋₊ % 16) ∧
    ((setPeriod 0.0 h s).PWMPERH = 0x00 ∧ (setPeriod 0.0 h s).PWMPERL = 0x0) ∧
    ((setPeriod 0.0625 h s).PWMPERH = 0x00 ∧ (setPeriod 0.0625 h s).PWMPERL = 0x1) ∧
    ((setPeriod 4095.9375 h s).PWMPERH = 0xFF ∧
      (setPeriod 4095.9375 h s).PWMPERL = 0xF) := by
  have e0 : toUInt16 ((0.0 : ℚ) * 16) = 0 := by
    have hq : (0.0 : ℚ) * 16 = ((0 : ℕ) : ℚ) := by norm_num
    rw [hq, toUInt16_natCast 0 (by decide)]
  have e1 : toUInt16 ((0.0625 : ℚ) * 16) = 1 := by
    have hq : (0.0625 : ℚ) * 16 = ((1 : ℕ) : ℚ) := by norm_num
    rw [hq, toUInt16_natCast 1 (by decide)]
  have e2 : toUInt16 ((4095.9375 : ℚ) * 16) = 65535 := by
    have hq : (4095.9375 : ℚ) * 16 = ((65535 : ℕ) : ℚ) := by norm_num
    rw [hq, toUInt16_natCast 65535 (by decide)]
  refine ⟨?_, ?_, ?_, ?_, ?_⟩
  · rw [← toUInt16_of_range _ h0 h1]
    exact setPeriod_regs v h s
  · rw [← toUInt16_of_range _ h0 h1]
    exact setPulseWidth_regs v h s
  · have hr := setPeriod_regs 0.0 h s
    rw [e0] at hr
    exact hr
  · have hr := setPeriod_regs 0.0625 h s
    rw [e1] at hr
    exact hr
  · have hr := setPeriod_regs 4095.9375 h s
    rw [e2] at hr
    exact hr

/-- C5 at `v = 2.5` (encoded 40): high byte `0x02`, low nibble `0x8`. -/
theorem c5_register_encoding_witness :
    0 ≤ (2.5 : ℚ) * 16 ∧ (2.5 : ℚ) * 16 < 65536 ∧
    (setPeriod 2.5 ⟨0⟩ (startState 0 0 0 0 0)).PWMPERH = (⌊(2.5 : ℚ) * 16⌋₊ >>> 4) % 256 ∧
    (setPeriod 2.5 ⟨0⟩ (startState 0 0 0 0 0)).PWMPERL = ⌊(2.5 : ℚ) * 16⌋₊ % 16 :=
  ⟨by norm_num, by norm_num,
    (c5_register_encoding 2.5 (by norm_num) (by norm_num) ⟨0⟩ (startState 0 0 0 0 0)).1⟩

/-- C6: for every index `i` in `0..31`, every value `v` and every prior state,
one call of `setPulseWidth(v)` or `setPeriod(v)` performs three register stores:
the two data bytes first, then one store to `PWMCR`, whose value is `0xA0 | i`
(update bit set, index `i`); exactly one of the stores of the call is to
`PWMCR`. -/
theorem c6_single_update_write (i : Nat) (hi : i < MAX_PWMS) (v : ℚ) (s : State) :
    (setPulseWidth v ⟨i⟩ s).writes = s.writes ++
      [(Reg.PWMPWH, (toUInt16 (v * 16) >>> 4) % 256),
       (Reg.PWMPWL, toUInt16 (v * 16) % 16),
       (Reg.PWMCR, 0xA0 ||| i)] ∧
    (setPeriod v ⟨i⟩ s).writes = s.writes ++
      [(Reg.PWMPERH, (toUInt16 (v * 16) >>> 4) % 256),
       (Reg.PWMPERL, toUInt16 (v * 16) % 16),
       (Reg.PWMCR, 0xA0 ||| i)] ∧
    (((setPulseWidth v ⟨i⟩ s).writes.drop s.writes.length).filter
      (fun w => w.1 = Reg.PWMCR)).length = 1 ∧
    (((setPeriod v ⟨i⟩ s).writes.drop s.writes.length).filter
      (fun w => w.1 = Reg.PWMCR)).length = 1 ∧
    (0xA0 ||| i).testBit 5 = true ∧ (0xA0 ||| i) % 32 = i := by
  have hi32 : i < 32 := hi
  have hu := (command_bytes i hi32).2.2
  have hpw := setPulseWidth_writes v ⟨i⟩ s
  have hper := setPeriod_writes v ⟨i⟩ s
  simp only [hu] at hpw hper
  refine ⟨hpw, hper, ?_, ?_, ?_, ?_⟩
  · rw [hpw, List.drop_left]
    simp
  · rw [hper, List.drop_left]
    simp
  · interval_cases i <;> decide
  · interval_cases i <;> decide

/-- C6 at index 3, `v = 2.5`, on a channel that was just enabled. -/
theorem c6_single_update_write_witness :
    3 < MAX_PWMS ∧
    (setPulseWidth 2.5 ⟨3⟩ (enable ⟨3⟩ (startState 0 0 0 0 0))).writes =
      (enable ⟨3⟩ (startState 0 0 0 0 0)).writes ++
      [(Reg.PWMPWH, (toUInt16 ((2.5 : ℚ) * 16) >>> 4) % 256),
       (Reg.PWMPWL, toUInt16 ((2.5 : ℚ) * 16) % 16),
       (Reg.PWMCR, 0xA0 ||| 3)] :=
  ⟨by decide,
    (c6_single_update_write 3 (by decide) 2.5 (enable ⟨3⟩ (startState 0 0 0 0 0))).1⟩

/-- C7, evaluated at `v = 2.5` on the first channel from the start state:
the encoded value is 40, `setPulseWidth` stores high `0x02` and low `0x8`, and
`getPulseWidth() * 16` is 0, not 40; likewise for `setPeriod` / `getPeriod`. -/
theorem c7_roundtrip_at_2_5 :
    toUInt16 ((2.5 : ℚ) * 16) = 40 ∧
    (setPulseWidth 2.5 ⟨0⟩ (startState 0 0 0 0 0)).PWMPWH = 0x02 ∧
    (setPulseWidth 2.5 ⟨0⟩ (startState 0 0 0 0 0)).PWMPWL = 0x8 ∧
    (getPulseWidth ⟨0⟩ (setPulseWidth 2.5 ⟨0⟩ (startState 0 0 0 0 0))).1 * 16 = 0 ∧
    (getPulseWidth ⟨0⟩ (setPulseWidth 2.5 ⟨0⟩ (startState 0 0 0 0 0))).1 * 16 ≠
      (toUInt16 ((2.5 : ℚ) * 16) : ℚ) ∧
    (getPeriod ⟨0⟩ (setPeriod 2.5 ⟨0⟩ (startState 0 0 0 0 0))).1 * 16 = 0 ∧
    (getPeriod ⟨0⟩ (setPeriod 2.5 ⟨0⟩ (startState 0 0 0 0 0))).1 * 16 ≠
      (toUInt16 ((2.5 : ℚ) * 16) : ℚ) := by
  have e : toUInt16 ((2.5 : ℚ) * 16) = 40 := by
    have hq : (2.5 : ℚ) * 16 = ((40 : ℕ) : ℚ) := by norm_num
    rw [hq, toUInt16_natCast 40 (by decide)]
  have hr := setPulseWidth_regs 2.5 ⟨0⟩ (startState 0 0 0 0 0)
  rw [e] at hr
  have gpw : (getPulseWidth ⟨0⟩ (setPulseWidth 2.5 ⟨0⟩ (startState 0 0 0 0 0))).1 * 16 = 0 := by
    simp only [getPulseWidth, shifted_and_nibble]
    norm_num
  have gper : (getPeriod ⟨0⟩ (setPeriod 2.5 ⟨0⟩ (startState 0 0 0 0 0))).1 * 16 = 0 := by
    simp only [getPeriod, shifted_and_nibble]
    norm_num
  refine ⟨e, hr.1, hr.2, gpw, ?_, gper, ?_⟩
  · rw [gpw, e]
    norm_num
  · rw [gper, e]
    norm_num

/-- C8: for all register contents, `getPulseWidth()` returns
`((PWMPWH << 4) AND (PWMPWL & 0x0f)) / 16` and `getPeriod()` returns
`((PWMPERH << 4) AND (PWMPERL & 0x0f)) / 16` (the decoding of the
specification, `decodeSpec`), and both return the state they were given:
no register, no table entry and not `PwmCount` is changed, and nothing is
added to the write log. -/
theorem c8_getters_decode (h : Handle) (s : State) :
    (getPulseWidth h s).1 = decodeSpec s.PWMPWH s.PWMPWL ∧
    (getPulseWidth h s).2 = s ∧
    (getPeriod h s).1 = decodeSpec s.PWMPERH s.PWMPERL ∧
    (getPeriod h s).2 = s := by
  have key : ∀ H L : Nat, (H <<< 4) &&& (L &&& 0x000f) = Nat.land (H * 2 ^ 4) (L % 16) := by
    intro H L
    have hL : L &&& 0x000f = L % 16 := Nat.and_pow_two_sub_one_eq_mod L 4
    rw [hL, Nat.shiftLeft_eq]
    rfl
  refine ⟨?_, rfl, ?_, rfl⟩
  · simp only [getPulseWidth, decodeSpec, key]
  · simp only [getPeriod, decodeSpec, key]

/-- C10: no call on the driver (construction, or `enable`, `disable`,
`setPulseWidth`, `setPeriod`, `getPulseWidth`, `getPeriod`, `isEnabled`,
`update` on a valid handle) decreases `PwmCount`; hence once `PwmCount` has
reached 32, after every sequence of such calls `PwmCount` is still at least 32
and the next construction returns `pwmIndex = 255`. -/
theorem c10_exhaustion_permanent (s : State) (ops : List Op)
    (_hv : ∀ op ∈ ops, op.OnValid) :
    s.PwmCount ≤ (run ops s).PwmCount ∧
    (MAX_PWMS ≤ s.PwmCount →
      MAX_PWMS ≤ (run ops s).PwmCount ∧
      (construct (run ops s)).1.pwmIndex = 255 ∧
      (construct (run ops s)).2 = run ops s) := by
  have hle := run_PwmCount_le ops s
  refine ⟨hle, ?_⟩
  intro hfull
  have hge : MAX_PWMS ≤ (run ops s).PwmCount := Nat.le_trans hfull hle
  rw [construct_of_ge _ hge]
  exact ⟨hge, rfl, rfl⟩

/-- C10 at the exhausted state with a mixed sequence of calls. -/
theorem c10_exhaustion_permanent_witness :
    (∀ op ∈ [Op.construct, Op.enable ⟨31⟩, Op.setPeriod 2.5 ⟨0⟩, Op.disable ⟨31⟩,
        Op.getPeriod ⟨0⟩, Op.isEnabled ⟨4⟩, Op.update ⟨7⟩, Op.setPulseWidth 1 ⟨2⟩,
        Op.getPulseWidth ⟨2⟩, Op.construct], op.OnValid) ∧
    MAX_PWMS ≤ fullState.PwmCount ∧
    (construct (run [Op.construct, Op.enable ⟨31⟩, Op.setPeriod 2.5 ⟨0⟩, Op.disable ⟨31⟩,
        Op.getPeriod ⟨0⟩, Op.isEnabled ⟨4⟩, Op.update ⟨7⟩, Op.setPulseWidth 1 ⟨2⟩,
        Op.getPulseWidth ⟨2⟩, Op.construct] fullState)).1.pwmIndex = 255 :=
  ⟨by decide, by decide,
    ((c10_exhaustion_permanent fullState
      [Op.construct, Op.enable ⟨31⟩, Op.setPeriod 2.5 ⟨0⟩, Op.disable ⟨31⟩,
        Op.getPeriod ⟨0⟩, Op.isEnabled ⟨4⟩, Op.update ⟨7⟩, Op.setPulseWidth 1 ⟨2⟩,
        Op.getPulseWidth ⟨2⟩, Op.construct] (by decide)).2 (by decide)).2.1⟩

/-- C13: for every handle with a valid index, every value `v` and every state
with a 32-entry table, `setPulseWidth(v)` and `setPeriod(v)` leave the whole
table of stored flags as it was, so `isEnabled()` on any handle returns the
same before and after the call; on a channel that was just enabled it still
returns `true`, on one that was just disabled still `false`. -/
theorem c13_setters_keep_enabled_flag (h : Handle) (hi : h.pwmIndex < MAX_PWMS) (v : ℚ)
    (s : State) (hlen : s.pwms.length = MAX_PWMS) :
    (setPulseWidth v h s).pwms = s.pwms ∧
    (setPeriod v h s).pwms = s.pwms ∧
    (∀ g : Handle, isEnabled g (setPulseWidth v h s) = isEnabled g s ∧
      isEnabled g (setPeriod v h s) = isEnabled g s) ∧
    (isEnabled h (setPulseWidth v h (enable h s)) = some true ∧
      isEnabled h (setPeriod v h (enable h s)) = some true) ∧
    (isEnabled h (setPulseWidth v h (disable h s)) = some false ∧
      isEnabled h (setPeriod v h (disable h s)) = some false) := by
  have hpw : ∀ (g : Handle) (t : State), isEnabled g (setPulseWidth v h t) = isEnabled g t := by
    intro g t
    simp only [isEnabled, setPulseWidth, update, loadEn_writeReg]
  have hper : ∀ (g : Handle) (t : State), isEnabled g (setPeriod v h t) = isEnabled g t := by
    intro g t
    simp only [isEnabled, setPeriod, update, loadEn_writeReg]
  have hen : isEnabled h (enable h s) = some true := by
    simp only [isEnabled, enable, loadEn_writeReg]
    exact loadEn_storeEn_same _ _ _ hi hlen
  have hdis : isEnabled h (disable h s) = some false := by
    simp only [isEnabled, disable, loadEn_writeReg]
    exact loadEn_storeEn_same _ _ _ hi hlen
  refine ⟨?_, ?_, fun g => ⟨hpw g s, hper g s⟩, ⟨?_, ?_⟩, ⟨?_, ?_⟩⟩
  · simp only [setPulseWidth, update, writeReg_pwms]
  · simp only [setPeriod, update, writeReg_pwms]
  · rw [hpw, hen]
  · rw [hper, hen]
  · rw [hpw, hdis]
  · rw [hper, hdis]

/-- C13 at index 3 with `v = 2.5` from the start state. -/
theorem c13_setters_keep_enabled_flag_witness :
    (⟨3⟩ : Handle).pwmIndex < MAX_PWMS ∧
    (startState 0 0 0 0 0).pwms.length = MAX_PWMS ∧
    (setPulseWidth 2.5 ⟨3⟩ (startState 0 0 0 0 0)).pwms = (startState 0 0 0 0 0).pwms ∧
    (setPeriod 2.5 ⟨3⟩ (startState 0 0 0 0 0)).pwms = (startState 0 0 0 0 0).pwms ∧
    isEnabled ⟨3⟩ (setPeriod 2.5 ⟨3⟩ (enable ⟨3⟩ (startState 0 0 0 0 0))) = some true ∧
    isEnabled ⟨3⟩ (setPeriod 2.5 ⟨3⟩ (disable ⟨3⟩ (startState 0 0 0 0 0))) = some false :=
  have h := c13_setters_keep_enabled_flag ⟨3⟩ (by decide) 2.5 (startState 0 0 0 0 0)
    (by decide)
  ⟨by decide, by decide, h.1, h.2.1, h.2.2.2.1.2, h.2.2.2.2.2⟩

/-- C14: in every state with `PwmCount = c < 32` (and a 32-entry table), a
construction returns index `c`, sets the stored flag of slot `c` to `false`,
sets `PwmCount` to `c + 1`, and changes nothing else: the state it returns is
the given state with just these two updates, so the flags of all other slots,
the five registers and the write log (no register store) are as before. -/
theorem c14_construct_frame (s : State) (hc : s.PwmCount < MAX_PWMS)
    (hlen : s.pwms.length = MAX_PWMS) :
    (construct s).1.pwmIndex = s.PwmCount ∧
    (construct s).2 =
      { s with PwmCount := s.PwmCount + 1, pwms := s.pwms.set s.PwmCount false } ∧
    loadEn s.PwmCount (construct s).2 = some false ∧
    (construct s).2.PwmCount = s.PwmCount + 1 ∧
    (∀ j, j ≠ s.PwmCount → loadEn j (construct s).2 = loadEn j s) ∧
    ((construct s).2.PWMCR = s.PWMCR ∧ (construct s).2.PWMPERH = s.PWMPERH ∧
      (construct s).2.PWMPERL = s.PWMPERL ∧ (construct s).2.PWMPWH = s.PWMPWH ∧
      (construct s).2.PWMPWL = s.PWMPWL) ∧
    (construct s).2.writes = s.writes := by
  have h256 : (s.PwmCount + 1) % 256 = s.PwmCount + 1 := by
    apply Nat.mod_eq_of_lt
    unfold MAX_PWMS at hc
    omega
  have heq : (construct s).2 =
      { s with PwmCount := s.PwmCount + 1, pwms := s.pwms.set s.PwmCount false } := by
    simp only [construct, hc, if_true, storeEn, h256]
  have hidx : (construct s).1.pwmIndex = s.PwmCount := by
    rw [(construct_of_lt s hc).1]
  have hslot : loadEn s.PwmCount (construct s).2 = some false :=
    (freshAt_construct s hlen hc).2.2
  have hother : ∀ j, j ≠ s.PwmCount → loadEn j (construct s).2 = loadEn j s := by
    intro j hj
    rw [heq]
    unfold loadEn
    split
    · exact List.getElem?_set_ne (Ne.symm hj)
    · rfl
  refine ⟨hidx, heq, hslot, (construct_of_lt s hc).2, hother, ?_, ?_⟩
  · rw [heq]
    exact ⟨rfl, rfl, rfl, rfl, rfl⟩
  · rw [heq]

/-- C14 at a state with five slots handed out, slot 5 holding a stale `true`
and non-zero register contents. -/
theorem c14_construct_frame_witness :
    ({ startState 0x85 1 2 3 4 with
        PwmCount := 5, pwms := (List.replicate MAX_PWMS false).set 5 true } : State).PwmCount
      < MAX_PWMS ∧
    (construct { startState 0x85 1 2 3 4 with
        PwmCount := 5, pwms := (List.replicate MAX_PWMS false).set 5 true }).1.pwmIndex = 5 ∧
    loadEn 5 (construct { startState 0x85 1 2 3 4 with
        PwmCount := 5, pwms := (List.replicate MAX_PWMS false).set 5 true }).2 = some false ∧
    (construct { startState 0x85 1 2 3 4 with
        PwmCount := 5, pwms := (List.replicate MAX_PWMS false).set 5 true }).2.PwmCount = 6 :=
  have h := c14_construct_frame
    { startState 0x85 1 2 3 4 with
        PwmCount := 5, pwms := (List.replicate MAX_PWMS false).set 5 true }
    (by decide) (by decide)
  ⟨by decide, h.1, h.2.2.1, h.2.2.2.1⟩

/-- C15: for every content `H`, `L` of the high and low registers the decoded
integer `(H << 4) & (L & 0x0f)` is 0 (the shifted high byte has its four low
bits clear, the masked low byte is below 16); hence `getPulseWidth()` and
`getPeriod()` return 0 in every state, in particular right after
`setPulseWidth(v)` / `setPeriod(v)` for any `v`. -/
theorem c15_getters_return_zero (h : Handle) (s : State) (H L : Nat) (v : ℚ) :
    (H <<< 4) &&& (L &&& 0x0f) = 0 ∧
    (H <<< 4) % 16 = 0 ∧
    L &&& 0x0f < 16 ∧
    (getPulseWidth h s).1 = 0 ∧
    (getPeriod h s).1 = 0 ∧
    (getPulseWidth h (setPulseWidth v h s)).1 = 0 ∧
    (getPeriod h (setPeriod v h s)).1 = 0 := by
  have hz : ∀ t : State, (getPulseWidth h t).1 = 0 ∧ (getPeriod h t).1 = 0 := by
    intro t
    constructor
    · simp only [getPulseWidth, shifted_and_nibble]
      norm_num
    · simp only [getPeriod, shifted_and_nibble]
      norm_num
  refine ⟨shifted_and_nibble H L, ?_, ?_, (hz s).1, (hz s).2, (hz _).1, (hz _).2⟩
  · rw [Nat.shiftLeft_eq]
    omega
  · exact Nat.and_lt_two_pow L (by decide : 0x0f < 2 ^ 4)

/-- C16: for every `v` with `0 ≤ v` and `v + 256 < 4096`, `setPeriod(v + 256)`
performs the same register stores as `setPeriod(v)` (the two calls end in the
same state), and likewise `setPulseWidth(v + 256)` and `setPulseWidth(v)`; for
both setters the pair stored holds the low 12 bits of the encoded value
(`high * 16 + low = trunc(v*16) mod 4096`, with
`high = (trunc(v*16) mod 4096) / 16` and `low = trunc(v*16) mod 16`), and the
stores of the call for `v + 256` are these two bytes of `v` followed by the
command byte; `4095.9375` and `255.9375` both give `(0xFF, 0xF)` in the period
registers and in the pulse-width registers. -/
theorem c16_low_twelve_bits (v : ℚ) (h0 : 0 ≤ v) (h1 : v + 256 < 4096)
    (h : Handle) (s : State) :
    setPeriod (v + 256) h s = setPeriod v h s ∧
    setPulseWidth (v + 256) h s = setPulseWidth v h s ∧
    ((setPeriod (v + 256) h s).PWMPERH = (setPeriod v h s).PWMPERH ∧
      (setPeriod (v + 256) h s).PWMPERL = (setPeriod v h s).PWMPERL) ∧
    ((setPulseWidth (v + 256) h s).PWMPWH = (setPulseWidth v h s).PWMPWH ∧
      (setPulseWidth (v + 256) h s).PWMPWL = (setPulseWidth v h s).PWMPWL) ∧
    (setPeriod v h s).PWMPERH * 16 + (setPeriod v h s).PWMPERL = ⌊v * 16⌋₊ % 4096 ∧
    (setPeriod (v + 256) h s).PWMPERH * 16 + (setPeriod (v + 256) h s).PWMPERL =
      ⌊(v + 256) * 16⌋₊ % 4096 ∧
    ((setPeriod 4095.9375 h s).PWMPERH = 0xFF ∧ (setPeriod 4095.9375 h s).PWMPERL = 0xF) ∧
    ((setPeriod 255.9375 h s).PWMPERH = 0xFF ∧ (setPeriod 255.9375 h s).PWMPERL = 0xF) ∧
    (setPulseWidth v h s).PWMPWH * 16 + (setPulseWidth v h s).PWMPWL = ⌊v * 16⌋₊ % 4096 ∧
    (setPulseWidth (v + 256) h s).PWMPWH * 16 + (setPulseWidth (v + 256) h s).PWMPWL =
      ⌊(v + 256) * 16⌋₊ % 4096 ∧
    ((setPulseWidth 4095.9375 h s).PWMPWH = 0xFF ∧
      (setPulseWidth 4095.9375 h s).PWMPWL = 0xF) ∧
    ((setPulseWidth 255.9375 h s).PWMPWH = 0xFF ∧
      (setPulseWidth 255.9375 h s).PWMPWL = 0xF) ∧
    ((setPeriod (v + 256) h s).PWMPERH = (⌊v * 16⌋₊ % 4096) / 16 ∧
      (setPeriod (v + 256) h s).PWMPERL = ⌊v * 16⌋₊ % 16 ∧
      (setPeriod v h s).PWMPERH = (⌊v * 16⌋₊ % 4096) / 16 ∧
      (setPeriod v h s).PWMPERL = ⌊v * 16⌋₊ % 16) ∧
    ((setPulseWidth (v + 256) h s).PWMPWH = (⌊v * 16⌋₊ % 4096) / 16 ∧
      (setPulseWidth (v + 256) h s).PWMPWL = ⌊v * 16⌋₊ % 16 ∧
      (setPulseWidth v h s).PWMPWH = (⌊v * 16⌋₊ % 4096) / 16 ∧
      (setPulseWidth v h s).PWMPWL = ⌊v * 16⌋₊ % 16) ∧
    (setPeriod (v + 256) h s).writes = s.writes ++
      [(Reg.PWMPERH, (⌊v * 16⌋₊ % 4096) / 16),
       (Reg.PWMPERL, ⌊v * 16⌋₊ % 16),
       (Reg.PWMCR, ((1 <<< 7) ||| (0 <<< 6) ||| (1 <<< 5) ||| (h.pwmIndex &&& 0x1f)) % 256)] ∧
    (setPulseWidth (v + 256) h s).writes = s.writes ++
      [(Reg.PWMPWH, (⌊v * 16⌋₊ % 4096) / 16),
       (Reg.PWMPWL, ⌊v * 16⌋₊ % 16),
       (Reg.PWMCR, ((1 <<< 7) ||| (0 <<< 6) ||| (1 <<< 5) ||| (h.pwmIndex &&& 0x1f)) % 256)] := by
  have henc := toUInt16_add_256 v h0 h1
  obtain ⟨hb1, hb2⟩ := bytes_add_4096 (toUInt16 (v * 16))
  have hper : setPeriod (v + 256) h s = setPeriod v h s := by
    simp only [setPeriod, henc, hb1, hb2]
  have hpw : setPulseWidth (v + 256) h s = setPulseWidth v h s := by
    simp only [setPulseWidth, henc, hb1, hb2]
  have hv0 : 0 ≤ v * 16 := by linarith
  have hv1 : v * 16 < 65536 := by linarith
  have hw0 : 0 ≤ (v + 256) * 16 := by linarith
  have hw1 : (v + 256) * 16 < 65536 := by linarith
  have low12 : ∀ x : ℚ, 0 ≤ x * 16 → x * 16 < 65536 →
      (setPeriod x h s).PWMPERH * 16 + (setPeriod x h s).PWMPERL = ⌊x * 16⌋₊ % 4096 := by
    intro x hx0 hx1
    obtain ⟨r1, r2⟩ := setPeriod_regs x h s
    rw [r1, r2, toUInt16_of_range _ hx0 hx1, Nat.shiftRight_eq_div_pow]
    omega
  have low12pw : ∀ x : ℚ, 0 ≤ x * 16 → x * 16 < 65536 →
      (setPulseWidth x h s).PWMPWH * 16 + (setPulseWidth x h s).PWMPWL =
        ⌊x * 16⌋₊ % 4096 := by
    intro x hx0 hx1
    obtain ⟨r1, r2⟩ := setPulseWidth_regs x h s
    rw [r1, r2, toUInt16_of_range _ hx0 hx1, Nat.shiftRight_eq_div_pow]
    omega
  have hhigh : (toUInt16 (v * 16) >>> 4) % 256 = (⌊v * 16⌋₊ % 4096) / 16 := by
    rw [toUInt16_of_range _ hv0 hv1, Nat.shiftRight_eq_div_pow]
    omega
  have hlow : toUInt16 (v * 16) % 16 = ⌊v * 16⌋₊ % 16 := by
    rw [toUInt16_of_range _ hv0 hv1]
  have e1 : toUInt16 ((4095.9375 : ℚ) * 16) = 65535 := by
    have hq : (4095.9375 : ℚ) * 16 = ((65535 : ℕ) : ℚ) := by norm_num
    rw [hq, toUInt16_natCast 65535 (by decide)]
  have e2 : toUInt16 ((255.9375 : ℚ) * 16) = 4095 := by
    have hq : (255.9375 : ℚ) * 16 = ((4095 : ℕ) : ℚ) := by norm_num
    rw [hq, toUInt16_natCast 4095 (by decide)]
  obtain ⟨rper1, rper2⟩ := setPeriod_regs v h s
  obtain ⟨rpw1, rpw2⟩ := setPulseWidth_regs v h s
  rw [hhigh] at rper1 rpw1
  rw [hlow] at rper2 rpw2
  refine ⟨hper, hpw, ⟨by rw [hper], by rw [hper]⟩, ⟨by rw [hpw], by rw [hpw]⟩,
    low12 v hv0 hv1, low12 (v + 256) hw0 hw1, ?_, ?_,
    low12pw v hv0 hv1, low12pw (v + 256) hw0 hw1, ?_, ?_,
    ⟨by rw [hper]; exact rper1, by rw [hper]; exact rper2, rper1, rper2⟩,
    ⟨by rw [hpw]; exact rpw1, by rw [hpw]; exact rpw2, rpw1, rpw2⟩, ?_, ?_⟩
  · have hr := setPeriod_regs 4095.9375 h s
    rw [e1] at hr
    exact hr
  · have hr := setPeriod_regs 255.9375 h s
    rw [e2] at hr
    exact hr
  · have hr := setPulseWidth_regs 4095.9375 h s
    rw [e1] at hr
    exact hr
  · have hr := setPulseWidth_regs 255.9375 h s
    rw [e2] at hr
    exact hr
  · rw [hper, setPeriod_writes, hhigh, hlow]
  · rw [hpw, setPulseWidth_writes, hhigh, hlow]

/-- C16 at `v = 2.5` (encoded 40, and 4136 for `258.5`): both calls of either
setter end in the same state, and `setPulseWidth(258.5)` leaves high `0x02`,
low `0x8`. -/
theorem c16_low_twelve_bits_witness :
    (0 : ℚ) ≤ 2.5 ∧ (2.5 : ℚ) + 256 < 4096 ∧
    setPeriod (2.5 + 256) ⟨0⟩ (startState 0 0 0 0 0) =
      setPeriod 2.5 ⟨0⟩ (startState 0 0 0 0 0) ∧
    setPulseWidth (2.5 + 256) ⟨0⟩ (startState 0 0 0 0 0) =
      setPulseWidth 2.5 ⟨0⟩ (startState 0 0 0 0 0) ∧
    (setPulseWidth (2.5 + 256) ⟨0⟩ (startState 0 0 0 0 0)).PWMPWH =
      (⌊(2.5 : ℚ) * 16⌋₊ % 4096) / 16 ∧
    (setPulseWidth (2.5 + 256) ⟨0⟩ (startState 0 0 0 0 0)).PWMPWL =
      ⌊(2.5 : ℚ) * 16⌋₊ % 16 ∧
    (setPulseWidth 255.9375 ⟨0⟩ (startState 0 0 0 0 0)).PWMPWH = 0xFF ∧
    (setPulseWidth 255.9375 ⟨0⟩ (startState 0 0 0 0 0)).PWMPWL = 0xF :=
  have h := c16_low_twelve_bits 2.5 (by norm_num) (by norm_num) ⟨0⟩ (startState 0 0 0 0 0)
  ⟨by norm_num, by norm_num, h.1, h.2.1,
    h.2.2.2.2.2.2.2.2.2.2.2.2.2.1.1, h.2.2.2.2.2.2.2.2.2.2.2.2.2.1.2.1,
    h.2.2.2.2.2.2.2.2.2.2.2.1.1, h.2.2.2.2.2.2.2.2.2.2.2.1.2⟩

/-- C17: for two distinct valid indices `i ≠ j` (both below 32), `enable()`,
`disable()`, `setPulseWidth(v)` and `setPeriod(v)` on handle `i` leave the
result of `isEnabled()` on handle `j` unchanged; and `isEnabled()` on handle
`j` gives the same result in any two states whose tables agree at entry `j`,
whatever their registers, counter and other entries hold. -/
theorem c17_channel_isolation (i j : Nat) (_hi : i < MAX_PWMS) (hj : j < MAX_PWMS)
    (hij : i ≠ j) (v : ℚ) (s t : State) :
    isEnabled ⟨j⟩ (enable ⟨i⟩ s) = isEnabled ⟨j⟩ s ∧
    isEnabled ⟨j⟩ (disable ⟨i⟩ s) = isEnabled ⟨j⟩ s ∧
    isEnabled ⟨j⟩ (setPulseWidth v ⟨i⟩ s) = isEnabled ⟨j⟩ s ∧
    isEnabled ⟨j⟩ (setPeriod v ⟨i⟩ s) = isEnabled ⟨j⟩ s ∧
    (s.pwms[j]? = t.pwms[j]? → isEnabled ⟨j⟩ s = isEnabled ⟨j⟩ t) := by
  refine ⟨?_, ?_, ?_, ?_, ?_⟩
  · simp only [isEnabled, enable, loadEn_writeReg]
    exact loadEn_storeEn_other j i true s hij
  · simp only [isEnabled, disable, loadEn_writeReg]
    exact loadEn_storeEn_other j i false s hij
  · simp only [isEnabled, setPulseWidth, update, loadEn_writeReg]
  · simp only [isEnabled, setPeriod, update, loadEn_writeReg]
  · intro hst
    simp only [isEnabled, loadEn, hj, if_true]
    exact hst

/-- C17 at indices 3 and 4: channel 4 was enabled, the calls are on channel 3;
the second state of the comparison has other registers and another counter. -/
theorem c17_channel_isolation_witness :
    3 < MAX_PWMS ∧ 4 < MAX_PWMS ∧ 3 ≠ 4 ∧
    isEnabled ⟨4⟩ (enable ⟨3⟩ (enable ⟨4⟩ (startState 0 0 0 0 0))) =
      isEnabled ⟨4⟩ (enable ⟨4⟩ (startState 0 0 0 0 0)) ∧
    isEnabled ⟨4⟩ (disable ⟨3⟩ (enable ⟨4⟩ (startState 0 0 0 0 0))) =
      isEnabled ⟨4⟩ (enable ⟨4⟩ (startState 0 0 0 0 0)) ∧
    isEnabled ⟨4⟩ (enable ⟨4⟩ (startState 0 0 0 0 0)) =
      isEnabled ⟨4⟩ { enable ⟨4⟩ (startState 0 0 0 0 0) with
        PWMCR := 0x40, PWMPERH := 7, PwmCount := 9 } :=
  have h := c17_channel_isolation 3 4 (by decide) (by decide) (by decide) 2.5
    (enable ⟨4⟩ (startState 0 0 0 0 0))
    { enable ⟨4⟩ (startState 0 0 0 0 0) with PWMCR := 0x40, PWMPERH := 7, PwmCount := 9 }
  ⟨by decide, by decide, by decide, h.1, h.2.1, h.2.2.2.2 rfl⟩

/-- C18: a handle returned by a construction made while `PwmCount < 32` has an
index below 32, and with it the constructor, `enable()` and `disable()` store
inside the 32-entry table and `isEnabled()` loads from inside it (no access
outside the table is recorded); a handle returned while `PwmCount ≥ 32` has
index 255, and with it `enable()` and `disable()` store at table index 255 and
`isEnabled()` loads at 255, outside the table, while the index field of the
command byte is the masked value 31. -/
theorem c18_table_bounds (s t : State) (hlen : t.pwms.length = MAX_PWMS) :
    (s.PwmCount < MAX_PWMS →
      (construct s).1.pwmIndex < MAX_PWMS ∧
      (construct s).2.outOfTable = s.outOfTable ∧
      ((enable (construct s).1 t).outOfTable = t.outOfTable ∧
        (enable (construct s).1 t).pwms = t.pwms.set (construct s).1.pwmIndex true) ∧
      ((disable (construct s).1 t).outOfTable = t.outOfTable ∧
        (disable (construct s).1 t).pwms = t.pwms.set (construct s).1.pwmIndex false) ∧
      (isEnabled (construct s).1 t = t.pwms[(construct s).1.pwmIndex]? ∧
        (isEnabled (construct s).1 t).isSome = true)) ∧
    (MAX_PWMS ≤ s.PwmCount →
      (construct s).1.pwmIndex = 255 ∧
      ¬ (construct s).1.pwmIndex < t.pwms.length ∧
      ((enable (construct s).1 t).outOfTable = t.outOfTable ++ [255] ∧
        (enable (construct s).1 t).pwms = t.pwms) ∧
      ((disable (construct s).1 t).outOfTable = t.outOfTable ++ [255] ∧
        (disable (construct s).1 t).pwms = t.pwms) ∧
      isEnabled (construct s).1 t = none ∧
      (enable (construct s).1 t).PWMCR % 32 = 31) := by
  constructor
  · intro hc
    have hidx : (construct s).1 = ⟨s.PwmCount⟩ := (construct_of_lt s hc).1
    have hout : (construct s).2.outOfTable = s.outOfTable := by
      simp only [construct, hc, if_true]
      exact (storeEn_outOfTable_inside _ _ _ hc).1
    rw [hidx]
    have hlt : s.PwmCount < t.pwms.length := by omega
    refine ⟨hc, hout, ⟨?_, ?_⟩, ⟨?_, ?_⟩, ?_, ?_⟩
    · simp only [enable, writeReg_outOfTable]
      exact (storeEn_outOfTable_inside _ _ _ hc).1
    · simp only [enable, writeReg_pwms]
      exact (storeEn_outOfTable_inside _ _ _ hc).2
    · simp only [disable, writeReg_outOfTable]
      exact (storeEn_outOfTable_inside _ _ _ hc).1
    · simp only [disable, writeReg_pwms]
      exact (storeEn_outOfTable_inside _ _ _ hc).2
    · simp only [isEnabled, loadEn, hc, if_true]
    · simp only [isEnabled, loadEn, hc, if_true]
      rw [List.getElem?_eq_getElem hlt]
      rfl
  · intro hc
    have h255 : ¬ INVALID_PWM < MAX_PWMS := by decide
    rw [construct_of_ge s hc]
    have hcmd : ∀ u : State, (enable ⟨INVALID_PWM⟩ u).PWMCR % 32 = 31 := by
      intro u
      simp only [enable, writeReg_PWMCR]
      decide
    refine ⟨rfl, ?_, ⟨?_, ?_⟩, ⟨?_, ?_⟩, ?_, hcmd t⟩
    · rw [hlen]
      exact h255
    · simp only [enable, writeReg_outOfTable]
      exact (storeEn_outOfTable_outside _ _ _ h255).1
    · simp only [enable, writeReg_pwms]
      exact (storeEn_outOfTable_outside _ _ _ h255).2
    · simp only [disable, writeReg_outOfTable]
      exact (storeEn_outOfTable_outside _ _ _ h255).1
    · simp only [disable, writeReg_pwms]
      exact (storeEn_outOfTable_outside _ _ _ h255).2
    · simp only [isEnabled, loadEn, h255, if_false]

/-- C18 at the start state (first handle, index 0) and at the exhausted state
(index 255). -/
theorem c18_table_bounds_witness :
    (startState 0 0 0 0 0).pwms.length = MAX_PWMS ∧
    (startState 0 0 0 0 0).PwmCount < MAX_PWMS ∧
    MAX_PWMS ≤ fullState.PwmCount ∧
    (construct (startState 0 0 0 0 0)).1.pwmIndex < MAX_PWMS ∧
    (enable (construct (startState 0 0 0 0 0)).1 (startState 0 0 0 0 0)).outOfTable =
      (startState 0 0 0 0 0).outOfTable ∧
    (construct fullState).1.pwmIndex = 255 ∧
    (enable (construct fullState).1 (startState 0 0 0 0 0)).outOfTable =
      (startState 0 0 0 0 0).outOfTable ++ [255] ∧
    isEnabled (construct fullState).1 (startState 0 0 0 0 0) = none :=
  have ha := (c18_table_bounds (startState 0 0 0 0 0) (startState 0 0 0 0 0)
    (by decide)).1 (by decide)
  have hb := (c18_table_bounds fullState (startState 0 0 0 0 0) (by decide)).2 (by decide)
  ⟨by decide, by decide, by decide, ha.1, ha.2.2.1.1, hb.1, hb.2.2.1.1, hb.2.2.2.2.1⟩

/-- C19: for every valid index `i`, every value `v` and every state with a
32-entry table, after `disable()` followed by `setPeriod(v)` (or
`setPulseWidth(v)`) `isEnabled()` returns `false`, while the last byte stored
into `PWMCR` is `0xA0 | i`, whose bit 7 (enable) is 1 and whose bit 6
(disable) is 0. -/
theorem c19_flag_and_command_disagree (i : Nat) (hi : i < MAX_PWMS) (v : ℚ) (s : State)
    (hlen : s.pwms.length = MAX_PWMS) :
    (isEnabled ⟨i⟩ (setPeriod v ⟨i⟩ (disable ⟨i⟩ s)) = some false ∧
      (setPeriod v ⟨i⟩ (disable ⟨i⟩ s)).PWMCR = 0xA0 ||| i ∧
      (setPeriod v ⟨i⟩ (disable ⟨i⟩ s)).writes.getLast? = some (Reg.PWMCR, 0xA0 ||| i)) ∧
    (isEnabled ⟨i⟩ (setPulseWidth v ⟨i⟩ (disable ⟨i⟩ s)) = some false ∧
      (setPulseWidth v ⟨i⟩ (disable ⟨i⟩ s)).PWMCR = 0xA0 ||| i ∧
      (setPulseWidth v ⟨i⟩ (disable ⟨i⟩ s)).writes.getLast? =
        some (Reg.PWMCR, 0xA0 ||| i)) ∧
    (0xA0 ||| i).testBit 7 = true ∧ (0xA0 ||| i).testBit 6 = false := by
  have hi32 : i < 32 := hi
  have hu := (command_bytes i hi32).2.2
  have hdis : isEnabled ⟨i⟩ (disable ⟨i⟩ s) = some false := by
    simp only [isEnabled, disable, loadEn_writeReg]
    exact loadEn_storeEn_same _ _ _ hi hlen
  obtain ⟨cpw, cper⟩ := setters_PWMCR v ⟨i⟩ (disable ⟨i⟩ s)
  have wpw := setPulseWidth_writes v ⟨i⟩ (disable ⟨i⟩ s)
  have wper := setPeriod_writes v ⟨i⟩ (disable ⟨i⟩ s)
  simp only [hu] at cpw cper wpw wper
  refine ⟨⟨?_, cper, ?_⟩, ⟨?_, cpw, ?_⟩, ?_, ?_⟩
  · rw [← hdis]
    simp only [isEnabled, setPeriod, update, loadEn_writeReg]
  · rw [wper]
    simp
  · rw [← hdis]
    simp only [isEnabled, setPulseWidth, update, loadEn_writeReg]
  · rw [wpw]
    simp
  · interval_cases i <;> decide
  · interval_cases i <;> decide

/-- C19 at index 5 with `v = 2.5` from the start state: the flag reads `false`
and `PWMCR` holds `0xA5`. -/
theorem c19_flag_and_command_disagree_witness :
    5 < MAX_PWMS ∧ (startState 0 0 0 0 0).pwms.length = MAX_PWMS ∧
    isEnabled ⟨5⟩ (setPeriod 2.5 ⟨5⟩ (disable ⟨5⟩ (startState 0 0 0 0 0))) = some false ∧
    (setPeriod 2.5 ⟨5⟩ (disable ⟨5⟩ (startState 0 0 0 0 0))).PWMCR = 0xA5 :=
  have h := c19_flag_and_command_disagree 5 (by decide) 2.5 (startState 0 0 0 0 0)
    (by decide)
  ⟨by decide, by decide, h.1.1, h.1.2.1⟩

/-- C12: in every world reachable from the start by constructions and member
calls on valid handles: `PwmCount ≤ 32`; every constructed handle has
`pwmIndex = 255` or `pwmIndex < PwmCount`; a construction that succeeds (does
not return 255) returns exactly the value `PwmCount` had before the call; and
two different objects with valid indices have different indices. -/
theorem c12_allocator_invariant (w : World) (hr : Reachable w) :
    w.st.PwmCount ≤ MAX_PWMS ∧
    (∀ h ∈ w.handles, h.pwmIndex = 255 ∨ h.pwmIndex < w.st.PwmCount) ∧
    ((construct w.st).1.pwmIndex ≠ INVALID_PWM →
      (construct w.st).1.pwmIndex = w.st.PwmCount) ∧
    (∀ (a b : Nat) (x y : Handle), a ≠ b →
      w.handles[a]? = some x → w.handles[b]? = some y →
      x.pwmIndex < MAX_PWMS → y.pwmIndex < MAX_PWMS → x.pwmIndex ≠ y.pwmIndex) := by
  obtain ⟨hcap, hidx, hpair⟩ := allocInv_of_reachable w hr
  have hlt : ∀ (a b : Nat) (x y : Handle), a < b →
      w.handles[a]? = some x → w.handles[b]? = some y →
      x.pwmIndex < MAX_PWMS → y.pwmIndex < MAX_PWMS → x.pwmIndex ≠ y.pwmIndex := by
    intro a b x y hab hx hy hxv hyv
    obtain ⟨ha, hxa⟩ := List.getElem?_eq_some_iff.mp hx
    obtain ⟨hb, hyb⟩ := List.getElem?_eq_some_iff.mp hy
    have hd := (List.pairwise_iff_getElem.mp hpair) a b ha hb hab
    rw [hxa, hyb] at hd
    exact hd hxv hyv
  refine ⟨hcap, hidx, ?_, ?_⟩
  · intro hne
    by_cases hc : w.st.PwmCount < MAX_PWMS
    · rw [(construct_of_lt w.st hc).1]
    · rw [construct_of_ge w.st (Nat.not_lt.mp hc)] at hne
      exact absurd rfl hne
  · intro a b x y hab hx hy hxv hyv
    rcases Nat.lt_or_gt_of_ne hab with h1 | h1
    · exact hlt a b x y h1 hx hy hxv hyv
    · exact Ne.symm (hlt b a y x h1 hy hx hyv hxv)

/-- C12 at the world reached by two constructions and `enable()` on the first
object. -/
theorem c12_allocator_invariant_witness :
    Reachable (twoChannels.exec (.member 0 .enable)) ∧
    (twoChannels.exec (.member 0 .enable)).st.PwmCount ≤ MAX_PWMS ∧
    (∀ h ∈ (twoChannels.exec (.member 0 .enable)).handles,
      h.pwmIndex = 255 ∨ h.pwmIndex < (twoChannels.exec (.member 0 .enable)).st.PwmCount) :=
  have h0 : Reachable { st := startState 0 0 0 0 0, handles := [] } :=
    Reachable.start 0 0 0 0 0
  have h1 : Reachable
      (World.exec .construct { st := startState 0 0 0 0 0, handles := [] }) :=
    Reachable.call _ .construct h0 (by decide)
  have h2 : Reachable twoChannels :=
    Reachable.call _ .construct h1 (by decide)
  have hr : Reachable (twoChannels.exec (.member 0 .enable)) :=
    Reachable.call twoChannels (.member 0 .enable) h2 (by decide)
  have h := c12_allocator_invariant (twoChannels.exec (.member 0 .enable)) hr
  ⟨hr, h.1, h.2.1⟩

end XLR8PWM
